import Mathlib

/-!
Shallow embedding of the SSSD NSS group client (src/nss_client/group.c).

Modelling conventions:
* Byte buffers are total functions `Nat → Nat` whose values are byte values
  (the callers of this model always supply values below 256).
* `size_t` values are `Nat`; the one place where the C code can underflow an
  unsigned subtraction (`dlen -= ptmem`, and `replen - 8`) is modelled with an
  explicit wrap-around subtraction `csub64`.  All comparisons that C performs
  on unsigned values (`0 > dlen`, `i > slen`) are kept literally; on `Nat`
  they are false exactly as they are for `size_t`.
* `long int` values (initgroups) are `Int`.
* Multi-byte loads are native byte order, modelled little-endian.
* The caller-supplied arena is tracked as a `DecSt`: its current byte
  content, the log of pointer-slot writes (the `gr_mem` table entries, as
  arena offsets or NULL), and the log of all written byte indices.  A char
  pointer stored into the arena occupies 8 bytes whose raw byte content is
  given by an uninterpreted parameter `pb` (the compiler representation of
  a pointer); the decoder itself never depends on those bytes except through
  reads the C code also performs.
-/

deriving instance DecidableEq for Except

namespace SssNss

/-- Linux errno value for EBADMSG. -/
def EBADMSG : Nat := 74

/-- Linux errno value for ENOMEM. -/
def ENOMEM : Nat := 12

/-- enum nss_status values used by group.c. -/
inductive NssStatus
  | tryagain
  | unavail
  | notfound
  | success
deriving DecidableEq

/-- 64-bit wrap-around subtraction: the value of `a - b` computed on `size_t`
(for `a < 2^64` and `b ≤ 2^64`). -/
def csub64 (a b : Nat) : Nat := (a + 2 ^ 64 - b) % 2 ^ 64

/-- Native (little-endian) 32-bit load from a byte buffer. -/
def load32 (buf : Nat → Nat) (off : Nat) : Nat :=
  buf off + 256 * buf (off + 1) + 256 ^ 2 * buf (off + 2) + 256 ^ 3 * buf (off + 3)

/-- Native (little-endian) 64-bit load from a byte buffer. -/
def load64 (buf : Nat → Nat) (off : Nat) : Nat :=
  buf off + 256 * buf (off + 1) + 256 ^ 2 * buf (off + 2) + 256 ^ 3 * buf (off + 3)
    + 256 ^ 4 * buf (off + 4) + 256 ^ 5 * buf (off + 5)
    + 256 ^ 6 * buf (off + 6) + 256 ^ 7 * buf (off + 7)

/-- Little-endian bytes of a 32-bit value. -/
def encode32 (v : Nat) : List Nat :=
  [v % 256, v / 256 % 256, v / 256 ^ 2 % 256, v / 256 ^ 3 % 256]

/-- Little-endian bytes of a 64-bit value. -/
def encode64 (v : Nat) : List Nat :=
  [v % 256, v / 256 % 256, v / 256 ^ 2 % 256, v / 256 ^ 3 % 256,
   v / 256 ^ 4 % 256, v / 256 ^ 5 % 256, v / 256 ^ 6 % 256, v / 256 ^ 7 % 256]

/-- View a byte list as a byte buffer (reads past the end give 0). -/
def bufOf (l : List Nat) : Nat → Nat := fun k => l.getD k 0

/-- The caller-supplied output arena of the reply decoder: current byte
content, the pointer-slot writes performed on it (base byte index, stored
arena offset or NULL), and the log of every byte index written. -/
structure DecSt where
  arena : Nat → Nat
  slots : List (Nat × Option Nat)
  wlog : List Nat

/-- Write one byte into the arena (`pr->buffer[j] = v`). -/
def arWrite (st : DecSt) (j v : Nat) : DecSt :=
  { arena := fun k => if k = j then v else st.arena k
    slots := st.slots
    wlog := st.wlog ++ [j] }

/-- Write a char pointer (8 bytes) into the arena at byte base `base`:
either NULL or a pointer to arena offset `v`.  `pb` gives the raw byte
representation of the pointer. -/
def slotWrite (pb : Option Nat → Nat → Nat) (st : DecSt) (base : Nat) (v : Option Nat) : DecSt :=
  { arena := fun k => if base ≤ k ∧ k < base + 8 then pb v (k - base) else st.arena k
    slots := st.slots ++ [(base, v)]
    wlog := st.wlog ++ (List.range 8).map (fun t => base + t) }

/-- The caller-visible decoded record (struct group): the string fields are
arena offsets, `memOff` is the arena byte offset of the member pointer
table. -/
structure GrResult where
  gr_gid : Nat
  nameOff : Nat
  passwdOff : Nat
  memOff : Nat
  memNum : Nat
deriving DecidableEq

/-- The name/passwd copy loop of sss_nss_getgr_readrep (group.c:96-110 and
112-126): copy source bytes into the arena at index `i` until a NUL is
copied; the list argument is the unread remainder `sbuf[i..slen)` of the
source.  Running out of source is EBADMSG, running out of arena is ENOMEM;
on success the NUL has been copied and `i`/`dlen` account for it. -/
def copyField : List Nat → DecSt → Nat → Nat → Except Nat (Nat × Nat × List Nat) × DecSt
  | [], st, _, _ => (.error EBADMSG, st)
  | b :: rest, st, i, dlen =>
    if 0 < dlen then
      let st' := arWrite st i b
      if b = 0 then (.ok (i + 1, dlen - 1, rest), st')
      else copyField rest st' (i + 1) (dlen - 1)
    else (.error ENOMEM, st)

/-- The inner member copy loop (group.c:140-146): copy source bytes into the
arena at index `ptmem`; on a copied NUL the loop breaks with `ptmem` still at
the NUL. Returns (arena state, unread source, i, dlen, ptmem). -/
def memCopy : List Nat → DecSt → Nat → Nat → Nat → DecSt × List Nat × Nat × Nat × Nat
  | [], st, i, dlen, ptmem => (st, [], i, dlen, ptmem)
  | b :: rest, st, i, dlen, ptmem =>
    if 0 < dlen then
      let st' := arWrite st ptmem b
      if b = 0 then (st', rest, i + 1, dlen - 1, ptmem)
      else memCopy rest st' (i + 1) (dlen - 1) (ptmem + 1)
    else (st, b :: rest, i, dlen, ptmem)

/-- The outer member loop of sss_nss_getgr_readrep (group.c:138-156): for
each member, store the pointer `&buffer[ptmem]` into table slot `l`, run the
inner copy, then perform the post-loop checks of lines 147-154 literally.
Note that on `Nat` (as on `size_t`) `slen < i` and `0 > dlen` mirror the C
comparisons `i > slen` and `0 > dlen` on unsigned values.  On success
returns the final source index and ptmem. -/
def membersLoop (pb : Option Nat → Nat → Nat) (slen tableOff : Nat) :
    Nat → Nat → List Nat → DecSt → Nat → Nat → Nat → Except Nat (Nat × Nat) × DecSt
  | 0, _, _, st, i, _, ptmem => (.ok (i, ptmem), st)
  | n + 1, l, rem, st, i, dlen, ptmem =>
    let st1 := slotWrite pb st (tableOff + 8 * l) (some ptmem)
    match memCopy rem st1 i dlen ptmem with
    | (st2, rem2, i2, dlen2, ptmem2) =>
      if st2.arena ptmem2 ≠ 0 ∧ slen < i2 then (.error EBADMSG, st2)
      else if st2.arena ptmem2 ≠ 0 ∧ 0 > dlen2 then (.error ENOMEM, st2)
      else membersLoop pb slen tableOff n (l + 1) rem2 st2 i2 dlen2 (ptmem2 + 1)

/-- sss_nss_getgr_readrep (group.c:76-160): decode one wire group record of
`len` bytes from `buf` into a caller arena of capacity `buflen` whose initial
byte content is `arena0`.  Returns the decoded record and the value stored
back into `*len` (the unconsumed source bytes), plus the final arena state.
The subtraction `dlen -= ptmem` of line 131 is the unsigned wrap `csub64`,
and the following `0 > dlen` check is kept literally (it can never fire). -/
def sss_nss_getgr_readrep (pb : Option Nat → Nat → Nat) (buf : Nat → Nat)
    (len buflen : Nat) (arena0 : Nat → Nat) : Except Nat (GrResult × Nat) × DecSt :=
  let st0 : DecSt := ⟨arena0, [], []⟩
  if len < 21 then (.error EBADMSG, st0)
  else
    let mem_num := load32 buf 8
    let slen := len - 12
    let sbytes := (List.range slen).map (fun k => buf (12 + k))
    match copyField sbytes st0 0 buflen with
    | (.error e, st) => (.error e, st)
    | (.ok (i1, dlen1, rem1), st1) =>
      match copyField rem1 st1 i1 dlen1 with
      | (.error e, st) => (.error e, st)
      | (.ok (i2, dlen2, rem2), st2) =>
        let ptmem0 := 8 * ((mem_num + 1) % 2 ^ 32)
        let dlen3 := csub64 dlen2 ptmem0
        if 0 > dlen3 then (.error ENOMEM, st2)
        else
          let st3 := slotWrite pb st2 (i2 + 8 * mem_num) none
          match membersLoop pb slen i2 mem_num 0 rem2 st3 i2 dlen3 (ptmem0 + i2) with
          | (.error e, st) => (.error e, st)
          | (.ok (iF, _), stF) =>
            (.ok ({ gr_gid := load64 buf 0 % 2 ^ 32, nameOff := 0, passwdOff := i1,
                    memOff := i2, memNum := mem_num }, slen - iF), stF)

/-- Read a NUL-terminated string out of the arena starting at `off`, with a
fuel bound (what a caller of the NSS interface does with the returned char
pointers). -/
def readCStr (a : Nat → Nat) : Nat → Nat → List Nat
  | _, 0 => []
  | off, fuel + 1 => if a off = 0 then [] else a off :: readCStr a (off + 1) fuel

/-- Read back the pointer stored at byte base `base` of the arena from the
slot-write log (the latest write wins). -/
def readSlot : List (Nat × Option Nat) → Nat → Option (Option Nat)
  | [], _ => none
  | p :: rest, base =>
    match readSlot rest base with
    | some v => some v
    | none => if p.1 = base then some p.2 else none

/-- The string section of a wire record: name, passwd, then the members, each
NUL-terminated. -/
def membersBytes : List (List Nat) → List Nat
  | [] => []
  | m :: ms => (m ++ [0]) ++ membersBytes ms

/-- Encode a full wire group record: 8-byte gid, 4-byte member count, then
the NUL-terminated strings. -/
def encodeGr (gid memNum : Nat) (name passwd : List Nat) (members : List (List Nat)) : List Nat :=
  encode64 gid ++ encode32 memNum ++ ((name ++ [0]) ++ ((passwd ++ [0]) ++ membersBytes members))

/-- Arena capacity needed by a record: both copied strings, the
`(member count + 1)` pointer slots, and the member strings. -/
def arenaNeed (name passwd : List Nat) (members : List (List Nat)) : Nat :=
  (name.length + 1) + (passwd.length + 1) + 8 * (members.length + 1) + (membersBytes members).length

/-- Arena offsets at which successive member strings are placed, the first
at `ptmem`. -/
def memOffs (ptmem : Nat) : List (List Nat) → List Nat
  | [] => []
  | m :: ms => ptmem :: memOffs (ptmem + (m.length + 1)) ms

/-- The pointer-slot writes performed by a successful member loop. -/
def memSlots (tableOff : Nat) : Nat → Nat → List (List Nat) → List (Nat × Option Nat)
  | _, _, [] => []
  | l, ptmem, m :: ms =>
    (tableOff + 8 * l, some ptmem) :: memSlots tableOff (l + 1) (ptmem + (m.length + 1)) ms

/-- A string fit for the wire format: no embedded NUL. -/
def noNul (s : List Nat) : Prop := ∀ b ∈ s, b ≠ 0

instance (s : List Nat) : Decidable (noNul s) := by
  unfold noNul; infer_instance

/-- Bulk byte write of a list into the arena at consecutive indices. -/
def arWrites : DecSt → Nat → List Nat → DecSt
  | st, _, [] => st
  | st, i, b :: rest => arWrites (arWrite st i b) (i + 1) rest

/-- The arena state produced by a successful member loop: for each member,
the slot write then the byte copies. -/
def memPhase (pb : Option Nat → Nat → Nat) (tableOff : Nat) :
    Nat → Nat → DecSt → List (List Nat) → DecSt
  | _, _, st, [] => st
  | l, ptmem, st, m :: ms =>
    memPhase pb tableOff (l + 1) (ptmem + (m.length + 1))
      (arWrites (slotWrite pb st (tableOff + 8 * l) (some ptmem)) ptmem (m ++ [0])) ms

/-- All-zero byte buffer, used as a concrete initial arena. -/
def zeroArena : Nat → Nat := fun _ => 0

/-- A concrete pointer-byte representation, used to instantiate `pb`. -/
def pb0 : Option Nat → Nat → Nat := fun _ _ => 0

/-- The process-wide enumeration state `sss_nss_getgrent_data` (group.c:32):
batch length, read offset, and the held reply buffer (`none` models a NULL
`data` pointer; the buffer content is the byte function). -/
structure GrentData where
  len : Nat
  ptr : Nat
  data : Option (Nat → Nat)

/-- The state left by sss_nss_getgrent_data_clean (group.c:38-46). -/
def sss_nss_getgrent_data_clean : GrentData := ⟨0, 0, none⟩

/-- One reply of the request channel for a GETGRENT fetch: either
sss_nss_make_request fails with a status and errno, or it returns a reply
buffer and its length. -/
inductive Fetch
  | fail (s : NssStatus) (e : Nat)
  | ok (buf : Nat → Nat) (replen : Nat)

/-- _nss_sss_getgrent_r (group.c:344-406).  The channel is modelled by a
script of successive fetch outcomes (an exhausted script acts as a failing
channel).  If leftovers are present, one record is decoded from the held
batch and `ptr` is advanced to `len - replen`; otherwise the state is
cleaned, a batch is fetched, and (as in the C code, which calls itself) the
freshly stored state is processed again.  `replen - 8 == 0` on `size_t` is
the wrap-around comparison `csub64 replen 8 = 0`. -/
def nss_sss_getgrent_r (pb : Option Nat → Nat → Nat) (buflen : Nat) (arena0 : Nat → Nat) :
    List Fetch → GrentData → NssStatus × Option Nat × GrentData
  | script, st =>
    if st.data.isSome ∧ st.ptr < st.len then
      let f := st.data.getD (fun _ => 0)
      let replen := st.len - st.ptr
      match sss_nss_getgr_readrep pb (fun k => f (st.ptr + k)) replen buflen arena0 with
      | (.error e, _) => (.tryagain, some e, st)
      | (.ok (_, rem), _) => (.success, none, ⟨st.len, st.len - rem, st.data⟩)
    else
      match script with
      | [] => (.unavail, none, sss_nss_getgrent_data_clean)
      | .fail s e :: _ => (s, some e, sss_nss_getgrent_data_clean)
      | .ok buf replen :: rest =>
        if load32 buf 0 = 0 ∨ csub64 replen 8 = 0 then
          (.notfound, none, sss_nss_getgrent_data_clean)
        else
          nss_sss_getgrent_r pb buflen arena0 rest ⟨replen, 8, some buf⟩

/-- The enumeration state after _nss_sss_setgrent (group.c:326-342): the
cursor is cleaned; the stateless channel notification does not touch it. -/
def nss_sss_setgrent : GrentData := sss_nss_getgrent_data_clean

/-- The enumeration state after _nss_sss_endgrent (group.c:408-424). -/
def nss_sss_endgrent : GrentData := sss_nss_getgrent_data_clean

/-- _nss_sss_getgrnam_r (group.c:232-276), from the point where the channel
returned a reply buffer `repbuf` of length `replen`.  The returned Bool
records whether `free(repbuf)` was called before returning. -/
def nss_sss_getgrnam_r (pb : Option Nat → Nat → Nat) (repbuf : Nat → Nat)
    (replen buflen : Nat) (arena0 : Nat → Nat) : NssStatus × Option Nat × Bool :=
  if load32 repbuf 0 = 0 then (.notfound, none, true)
  else if ¬ load32 repbuf 0 = 1 then (.tryagain, some EBADMSG, false)
  else
    match sss_nss_getgr_readrep pb (fun k => repbuf (8 + k)) (csub64 replen 8) buflen arena0 with
    | (.error e, _) => (.tryagain, some e, true)
    | (.ok _, _) => (.success, none, true)

/-- _nss_sss_getgrgid_r (group.c:278-324), from the point where the channel
returned a reply; identical reply handling to the by-name lookup. -/
def nss_sss_getgrgid_r (pb : Option Nat → Nat → Nat) (repbuf : Nat → Nat)
    (replen buflen : Nat) (arena0 : Nat → Nat) : NssStatus × Option Nat × Bool :=
  if load32 repbuf 0 = 0 then (.notfound, none, true)
  else if ¬ load32 repbuf 0 = 1 then (.tryagain, some EBADMSG, false)
  else
    match sss_nss_getgr_readrep pb (fun k => repbuf (8 + k)) (csub64 replen 8) buflen arena0 with
    | (.error e, _) => (.tryagain, some e, true)
    | (.ok _, _) => (.success, none, true)

/-- Result of _nss_sss_initgroups_dyn: status, errno, the updated `*start`,
`*size` and `*groups` of the caller, and whether `free(repbuf)` was called. -/
structure InitgrRes where
  status : NssStatus
  errnop : Option Nat
  start : Int
  size : Int
  groups : Int → Nat
  freed : Bool

/-- The append loop of _nss_sss_initgroups_dyn (group.c:222-226): copy `n`
64-bit gids from the reply (starting at reply entry `l`) into the array at
`*start`, narrowing each to the 32-bit gid_t, and advance `*start`. -/
def appendIds (repbuf : Nat → Nat) : Nat → Nat → (Int → Nat) → Int → (Int → Nat) × Int
  | 0, _, groups, start => (groups, start)
  | n + 1, l, groups, start =>
    appendIds repbuf n (l + 1)
      (fun j => if j = start then load64 repbuf (8 + 8 * l) % 2 ^ 32 else groups j) (start + 1)

/-- _nss_sss_initgroups_dyn (group.c:171-229), from the point where the
channel returned a reply buffer.  `reallocOk` models whether realloc
succeeds; on success realloc preserves the array contents.  `max_ret` is a
`long int`: when the limit clamp leaves `limit - start` nonpositive the
append loop copies nothing. -/
def nss_sss_initgroups_dyn (repbuf : Nat → Nat) (start size : Int) (groups : Int → Nat)
    (limit : Int) (reallocOk : Bool) : InitgrRes :=
  let num_ret := load32 repbuf 0
  if num_ret = 0 then ⟨.notfound, none, start, size, groups, true⟩
  else if size - start < (num_ret : Int) then
    let newsize0 : Int := size + (num_ret : Int)
    let clamp := limit > 0 ∧ newsize0 > limit
    let newsize : Int := if clamp then limit else newsize0
    let max_ret : Int := if clamp then limit - start else (num_ret : Int)
    if reallocOk then
      let r := appendIds repbuf max_ret.toNat 0 groups start
      ⟨.success, none, r.2, newsize, r.1, false⟩
    else ⟨.tryagain, some ENOMEM, start, size, groups, true⟩
  else
    let r := appendIds repbuf ((load32 repbuf 0 : Nat)) 0 groups start
    ⟨.success, none, r.2, size, r.1, false⟩

/-- All-zero gid array, used as a concrete initial array. -/
def zeroGroups : Int → Nat := fun _ => 0

/-- The cursor invariant of the specification: the read offset never exceeds
the batch length. -/
def grentInv (d : GrentData) : Prop := d.ptr ≤ d.len

/-- Concrete record: name "abc", passwd "de", zero members, two trailing
bytes of the next record (total length 21, the decoder floor). -/
def srcC1 : List Nat := encode64 0 ++ encode32 0 ++ [97, 98, 99, 0, 100, 101, 0] ++ [1, 1]

/-- Concrete record: member count 1, name "aaaa", passwd "bb", then the
member "root" truncated before its NUL terminator (total length 24). -/
def srcC2 : List Nat := encode64 0 ++ encode32 1 ++ [97, 97, 97, 97, 0, 98, 98, 0, 114, 111, 111, 116]

/-- The structurally complete minimal record: empty name, empty passwd,
zero members (total length 14). -/
def srcMin : List Nat := encodeGr 0 0 [] [] []

/-- The record of the specification example: gid 10, name "wheel",
passwd "x", members "root" and "alice" (total length 31). -/
def srcWheel : List Nat :=
  encodeGr 10 2 [119, 104, 101, 101, 108] [120] [[114, 111, 111, 116], [97, 108, 105, 99, 101]]

/-- A lookup reply whose result count is 2 (ambiguous multi-result). -/
def repTwo : Nat → Nat := bufOf (encode32 2 ++ encode32 0)

/-- An initgroups reply with 2 gids (7 and 9). -/
def repC4 : Nat → Nat := bufOf (encode32 2 ++ encode32 0 ++ encode64 7 ++ encode64 9)

/-- An initgroups reply with 10 gids 100..109 (the specification example). -/
def repTen : Nat → Nat :=
  bufOf (encode32 10 ++ encode32 0 ++ (List.range 10).flatMap (fun k => encode64 (100 + k)))

/-- An initgroups reply with a single gid 5. -/
def repOne : Nat → Nat := bufOf (encode32 1 ++ encode32 0 ++ encode64 5)

theorem getD_append_lt (a b : List Nat) (k : Nat) (h : k < a.length) :
    (a ++ b).getD k 0 = a.getD k 0 := by
  induction a generalizing k with
  | nil => simp at h
  | cons x xs ih =>
    cases k with
    | zero => simp
    | succ n =>
      simp only [List.cons_append, List.getD_cons_succ]
      exact ih n (by simpa using h)

theorem getD_append_len (a b : List Nat) (k : Nat) :
    (a ++ b).getD (a.length + k) 0 = b.getD k 0 := by
  induction a with
  | nil => simp
  | cons x xs ih =>
    have h : (x :: xs).length + k = (xs.length + k) + 1 := by simp; omega
    rw [h, List.cons_append, List.getD_cons_succ, ih]

theorem arWrites_slots (bs : List Nat) (st : DecSt) (i : Nat) :
    (arWrites st i bs).slots = st.slots := by
  induction bs generalizing st i with
  | nil => rfl
  | cons b rest ih => simp [arWrites, ih, arWrite]

theorem arWrites_arena_out (bs : List Nat) (st : DecSt) (i j : Nat)
    (h : j < i ∨ i + bs.length ≤ j) : (arWrites st i bs).arena j = st.arena j := by
  induction bs generalizing st i with
  | nil => rfl
  | cons b rest ih =>
    have h1 : (arWrites st i (b :: rest)).arena j = (arWrite st i b).arena j := by
      show (arWrites (arWrite st i b) (i + 1) rest).arena j = _
      exact ih (arWrite st i b) (i + 1) (by simp at h; omega)
    rw [h1]
    have hj : j ≠ i := by simp at h; omega
    simp [arWrite, hj]

theorem arWrites_arena_in (bs : List Nat) (st : DecSt) (i k : Nat) (h : k < bs.length) :
    (arWrites st i bs).arena (i + k) = bs.getD k 0 := by
  induction bs generalizing st i k with
  | nil => simp at h
  | cons b rest ih =>
    cases k with
    | zero =>
      show (arWrites (arWrite st i b) (i + 1) rest).arena (i + 0) = b
      rw [arWrites_arena_out rest _ _ _ (by omega)]
      simp [arWrite]
    | succ n =>
      show (arWrites (arWrite st i b) (i + 1) rest).arena (i + (n + 1)) = rest.getD n 0
      have h2 : i + (n + 1) = (i + 1) + n := by omega
      rw [h2]
      exact ih _ _ _ (by simpa using h)

theorem slotWrite_arena_out (pb : Option Nat → Nat → Nat) (st : DecSt) (base : Nat)
    (v : Option Nat) (j : Nat) (h : j < base ∨ base + 8 ≤ j) :
    (slotWrite pb st base v).arena j = st.arena j := by
  have hj : ¬ (base ≤ j ∧ j < base + 8) := by omega
  simp [slotWrite, hj]

theorem copyField_ok (s tail : List Nat) (st : DecSt) (i dlen : Nat)
    (hnz : noNul s) (hd : s.length + 1 ≤ dlen) :
    copyField (s ++ 0 :: tail) st i dlen =
      (.ok (i + (s.length + 1), dlen - (s.length + 1), tail), arWrites st i (s ++ [0])) := by
  induction s generalizing st i dlen with
  | nil =>
    have h0 : 0 < dlen := by omega
    simp [copyField, arWrites, h0]
  | cons b rest ih =>
    have hb : b ≠ 0 := hnz b (by simp)
    have h0 : 0 < dlen := by omega
    have hrest : noNul rest := fun x hx => hnz x (by simp [hx])
    rw [List.cons_append, copyField]
    simp only [if_pos h0, if_neg hb]
    rw [ih (arWrite st i b) (i + 1) (dlen - 1) hrest (by simp at hd ⊢; omega)]
    have e1 : i + 1 + (rest.length + 1) = i + ((b :: rest).length + 1) := by simp; omega
    have e2 : dlen - 1 - (rest.length + 1) = dlen - ((b :: rest).length + 1) := by simp; omega
    rw [e1, e2]
    rfl

theorem memCopy_ok (s tail : List Nat) (st : DecSt) (i dlen ptmem : Nat)
    (hnz : noNul s) (hd : s.length + 1 ≤ dlen) :
    memCopy (s ++ 0 :: tail) st i dlen ptmem =
      (arWrites st ptmem (s ++ [0]), tail, i + (s.length + 1), dlen - (s.length + 1),
       ptmem + s.length) := by
  induction s generalizing st i dlen ptmem with
  | nil =>
    have h0 : 0 < dlen := by omega
    simp [memCopy, arWrites, h0]
  | cons b rest ih =>
    have hb : b ≠ 0 := hnz b (by simp)
    have h0 : 0 < dlen := by omega
    have hrest : noNul rest := fun x hx => hnz x (by simp [hx])
    rw [List.cons_append, memCopy]
    simp only [if_pos h0, if_neg hb]
    rw [ih (arWrite st ptmem b) (i + 1) (dlen - 1) (ptmem + 1) hrest (by simp at hd ⊢; omega)]
    have e1 : i + 1 + (rest.length + 1) = i + ((b :: rest).length + 1) := by simp; omega
    have e2 : dlen - 1 - (rest.length + 1) = dlen - ((b :: rest).length + 1) := by simp; omega
    have e3 : ptmem + 1 + rest.length = ptmem + (b :: rest).length := by simp; omega
    rw [e1, e2, e3]
    rfl

theorem membersLoop_ok (ms : List (List Nat)) (pb : Option Nat → Nat → Nat)
    (slen tableOff l : Nat) (tail : List Nat) (st : DecSt) (i dlen ptmem : Nat)
    (hnz : ∀ m ∈ ms, noNul m) (hd : (membersBytes ms).length ≤ dlen) :
    membersLoop pb slen tableOff ms.length l (membersBytes ms ++ tail) st i dlen ptmem =
      (.ok (i + (membersBytes ms).length, ptmem + (membersBytes ms).length),
       memPhase pb tableOff l ptmem st ms) := by
  induction ms generalizing l tail st i dlen ptmem with
  | nil => simp [membersBytes, membersLoop, memPhase]
  | cons m ms ih =>
    have hsplit : membersBytes (m :: ms) ++ tail = m ++ 0 :: (membersBytes ms ++ tail) := by
      simp [membersBytes, List.append_assoc]
    have hmlen : m.length + 1 ≤ dlen := by
      have := hd; simp [membersBytes] at this; omega
    show membersLoop pb slen tableOff (ms.length + 1) l (membersBytes (m :: ms) ++ tail)
        st i dlen ptmem = _
    rw [membersLoop, hsplit,
      memCopy_ok m (membersBytes ms ++ tail) _ i dlen ptmem (hnz m (by simp)) hmlen]
    have hterm : (arWrites (slotWrite pb st (tableOff + 8 * l) (some ptmem)) ptmem
        (m ++ [0])).arena (ptmem + m.length) = 0 := by
      rw [arWrites_arena_in _ _ _ _ (by simp)]
      have h0 : (m ++ [0]).getD (m.length + 0) 0 = 0 := by rw [getD_append_len]; rfl
      rw [Nat.add_zero] at h0
      exact h0
    simp only [hterm, ne_eq, not_true_eq_false, false_and, if_false]
    rw [ih (l + 1) tail _ _ _ _ (fun x hx => hnz x (by simp [hx]))
      (by simp [membersBytes] at hd ⊢; omega)]
    have e1 : i + (m.length + 1) + (membersBytes ms).length
        = i + (membersBytes (m :: ms)).length := by simp [membersBytes]; omega
    have e2 : ptmem + m.length + 1 + (membersBytes ms).length
        = ptmem + (membersBytes (m :: ms)).length := by simp [membersBytes]; omega
    rw [e1, e2]
    rfl

theorem memPhase_cons (pb : Option Nat → Nat → Nat) (tableOff l ptmem : Nat) (st : DecSt)
    (m : List Nat) (ms : List (List Nat)) :
    memPhase pb tableOff l ptmem st (m :: ms)
      = memPhase pb tableOff (l + 1) (ptmem + (m.length + 1))
          (arWrites (slotWrite pb st (tableOff + 8 * l) (some ptmem)) ptmem (m ++ [0])) ms := rfl

theorem memPhase_slots (ms : List (List Nat)) (pb : Option Nat → Nat → Nat)
    (tableOff l ptmem : Nat) (st : DecSt) :
    (memPhase pb tableOff l ptmem st ms).slots = st.slots ++ memSlots tableOff l ptmem ms := by
  induction ms generalizing l ptmem st with
  | nil => simp [memPhase, memSlots]
  | cons m ms ih =>
    show (memPhase pb tableOff (l + 1) (ptmem + (m.length + 1)) _ ms).slots = _
    rw [ih, arWrites_slots]
    simp [slotWrite, memSlots]

theorem memPhase_arena_out (ms : List (List Nat)) (pb : Option Nat → Nat → Nat)
    (tableOff l ptmem : Nat) (st : DecSt) (j : Nat)
    (hsep : tableOff + 8 * (l + ms.length) ≤ ptmem)
    (hj : j < tableOff + 8 * l ∨ (tableOff + 8 * (l + ms.length) ≤ j ∧ j < ptmem)) :
    (memPhase pb tableOff l ptmem st ms).arena j = st.arena j := by
  induction ms generalizing l ptmem st with
  | nil => rfl
  | cons m ms ih =>
    show (memPhase pb tableOff (l + 1) (ptmem + (m.length + 1)) _ ms).arena j = _
    rw [ih (l + 1) (ptmem + (m.length + 1)) _ (by simp at hsep ⊢; omega)
      (by simp at hj ⊢; omega)]
    rw [arWrites_arena_out _ _ _ _ (by simp at hj ⊢; omega)]
    exact slotWrite_arena_out _ _ _ _ _ (by simp at hj hsep ⊢; omega)

theorem memPhase_arena_mem (ms : List (List Nat)) (pb : Option Nat → Nat → Nat)
    (tableOff l ptmem : Nat) (st : DecSt) (idx k : Nat)
    (hsep : tableOff + 8 * (l + ms.length) ≤ ptmem)
    (hidx : idx < ms.length) (hk : k ≤ (ms.getD idx []).length) :
    (memPhase pb tableOff l ptmem st ms).arena ((memOffs ptmem ms).getD idx 0 + k)
      = ((ms.getD idx []) ++ [0]).getD k 0 := by
  induction ms generalizing l ptmem st idx with
  | nil => simp at hidx
  | cons m ms ih =>
    cases idx with
    | zero =>
      have hk' : k ≤ m.length := by simpa using hk
      have hsep' : tableOff + 8 * ((l + 1) + ms.length) ≤ ptmem + (m.length + 1) := by
        simp at hsep ⊢; omega
      simp only [memOffs, List.getD_cons_zero, List.getD_cons_zero, memPhase_cons]
      rw [memPhase_arena_out ms pb tableOff (l + 1) _ _ _ hsep'
        (Or.inr ⟨by simp at hsep ⊢; omega, by omega⟩)]
      exact arWrites_arena_in _ _ _ _ (by simp; omega)
    | succ n =>
      simp only [memOffs, List.getD_cons_succ, memPhase_cons]
      exact ih (l + 1) (ptmem + (m.length + 1)) _ n (by simp at hsep ⊢; omega)
        (by simpa using hidx) (by simpa using hk)

theorem readCStr_spec (s : List Nat) (a : Nat → Nat) (off fuel : Nat)
    (hb : ∀ k, k < s.length → a (off + k) = s.getD k 0)
    (hnz : noNul s) (hterm : a (off + s.length) = 0) (hf : s.length < fuel) :
    readCStr a off fuel = s := by
  induction s generalizing off fuel with
  | nil =>
    cases fuel with
    | zero => omega
    | succ n =>
      have h0 : a off = 0 := by simpa using hterm
      simp [readCStr, h0]
  | cons b rest ih =>
    cases fuel with
    | zero => omega
    | succ n =>
      have h0 : a off = b := by simpa using hb 0 (by simp)
      have hb0 : b ≠ 0 := hnz b (by simp)
      rw [readCStr, if_neg (by rw [h0]; exact hb0), h0]
      congr 1
      refine ih (off + 1) n ?_ (fun x hx => hnz x (by simp [hx])) ?_ (by simpa using hf)
      · intro k hk
        have := hb (k + 1) (by simpa using hk)
        simpa [Nat.add_assoc, Nat.add_comm 1 k] using this
      · have := hterm
        simpa [Nat.add_assoc, Nat.add_comm 1 rest.length] using this

theorem readSlot_append_some (a b : List (Nat × Option Nat)) (base : Nat) (v : Option Nat)
    (h : readSlot b base = some v) : readSlot (a ++ b) base = some v := by
  induction a with
  | nil => simpa using h
  | cons p rest ih => simp [readSlot, ih]

theorem readSlot_append_none (a b : List (Nat × Option Nat)) (base : Nat)
    (h : readSlot b base = none) : readSlot (a ++ b) base = readSlot a base := by
  induction a with
  | nil => simpa using h
  | cons p rest ih => simp [readSlot, ih]

theorem readSlot_memSlots_none (ms : List (List Nat)) (tableOff l ptmem b : Nat)
    (h : ∀ idx, idx < ms.length → b ≠ tableOff + 8 * (l + idx)) :
    readSlot (memSlots tableOff l ptmem ms) b = none := by
  induction ms generalizing l ptmem with
  | nil => rfl
  | cons m ms ih =>
    show readSlot ((tableOff + 8 * l, some ptmem) :: memSlots tableOff (l + 1) _ ms) b = none
    rw [readSlot]
    rw [ih (l + 1) _ (fun idx hidx => by
      have := h (idx + 1) (by simpa using hidx); omega)]
    have hne : tableOff + 8 * l ≠ b := by
      have := h 0 (by simp); omega
    simp [hne]

theorem readSlot_memSlots_hit (ms : List (List Nat)) (tableOff l ptmem idx : Nat)
    (h : idx < ms.length) :
    readSlot (memSlots tableOff l ptmem ms) (tableOff + 8 * (l + idx))
      = some (some ((memOffs ptmem ms).getD idx 0)) := by
  induction ms generalizing l ptmem idx with
  | nil => simp at h
  | cons m ms ih =>
    cases idx with
    | zero =>
      show readSlot ((tableOff + 8 * l, some ptmem) :: memSlots tableOff (l + 1) _ ms) _ = _
      rw [readSlot]
      rw [readSlot_memSlots_none ms tableOff (l + 1) _ _ (fun idx hidx => by omega)]
      simp [memOffs]
    | succ n =>
      show readSlot ((tableOff + 8 * l, some ptmem) :: memSlots tableOff (l + 1) _ ms) _ = _
      rw [readSlot]
      have e : tableOff + 8 * (l + (n + 1)) = tableOff + 8 * ((l + 1) + n) := by omega
      rw [e, ih (l + 1) _ n (by simpa using h)]
      simp [memOffs]

theorem member_lt_membersBytes (ms : List (List Nat)) (idx : Nat) (h : idx < ms.length) :
    (ms.getD idx []).length + 1 ≤ (membersBytes ms).length := by
  induction ms generalizing idx with
  | nil => simp at h
  | cons m ms ih =>
    cases idx with
    | zero => simp [membersBytes]
    | succ n =>
      have := ih n (by simpa using h)
      simp [membersBytes] at this ⊢
      omega

theorem csub64_eq (a b : Nat) (hb : b ≤ a) (ha : a < 2 ^ 64) : csub64 a b = a - b := by
  unfold csub64
  have h1 : a + 2 ^ 64 - b = (a - b) + 2 ^ 64 := by omega
  rw [h1, Nat.add_mod_right]
  exact Nat.mod_eq_of_lt (by omega)

theorem encodeGr_split (gid memNum : Nat) (name passwd : List Nat) (members : List (List Nat)) :
    encodeGr gid memNum name passwd members
      = (encode64 gid ++ encode32 memNum)
          ++ ((name ++ [0]) ++ ((passwd ++ [0]) ++ membersBytes members)) := by
  simp [encodeGr, List.append_assoc]

theorem encodeGr_length (gid memNum : Nat) (name passwd : List Nat) (members : List (List Nat)) :
    (encodeGr gid memNum name passwd members).length
      = 12 + ((name.length + 1) + ((passwd.length + 1) + (membersBytes members).length)) := by
  simp [encodeGr, encode64, encode32]
  omega

theorem range_map_append (pre post : List Nat) (h : pre.length = 12) :
    (List.range post.length).map (fun k => bufOf (pre ++ post) (12 + k)) = post := by
  apply List.ext_getElem (by simp)
  intro k h1 h2
  simp only [List.getElem_map, List.getElem_range, bufOf]
  rw [← h, getD_append_len]
  exact List.getD_eq_getElem post 0 h2

theorem sbytes_eq (gid memNum : Nat) (name passwd : List Nat) (members : List (List Nat)) :
    (List.range ((encodeGr gid memNum name passwd members).length - 12)).map
        (fun k => bufOf (encodeGr gid memNum name passwd members) (12 + k))
      = name ++ 0 :: (passwd ++ 0 :: membersBytes members) := by
  have hlen : (encodeGr gid memNum name passwd members).length - 12
      = ((name ++ [0]) ++ ((passwd ++ [0]) ++ membersBytes members)).length := by
    rw [encodeGr_length]; simp; omega
  rw [hlen]
  simp only [encodeGr_split]
  rw [range_map_append _ _ (by simp [encode64, encode32])]
  simp [List.append_assoc]

theorem load32_encodeGr (gid memNum : Nat) (name passwd : List Nat)
    (members : List (List Nat)) (h : memNum < 2 ^ 32) :
    load32 (bufOf (encodeGr gid memNum name passwd members)) 8 = memNum := by
  have key : ∀ k, bufOf (encodeGr gid memNum name passwd members) (8 + k)
      = (encode32 memNum ++ ((name ++ [0]) ++ ((passwd ++ [0]) ++ membersBytes members))).getD k 0 := by
    intro k
    have hsp : encodeGr gid memNum name passwd members
        = encode64 gid ++ (encode32 memNum
            ++ ((name ++ [0]) ++ ((passwd ++ [0]) ++ membersBytes members))) := by
      simp [encodeGr, List.append_assoc]
    rw [hsp]
    show (encode64 gid ++ _).getD (8 + k) 0 = _
    have h8 : (8 : Nat) + k = (encode64 gid).length + k := by simp [encode64]
    rw [h8, getD_append_len]
  have k0 := key 0
  simp only [Nat.add_zero] at k0
  have c0 : bufOf (encodeGr gid memNum name passwd members) 8 = memNum % 256 := k0.trans rfl
  have c1 : bufOf (encodeGr gid memNum name passwd members) (8 + 1) = memNum / 256 % 256 :=
    (key 1).trans rfl
  have c2 : bufOf (encodeGr gid memNum name passwd members) (8 + 2) = memNum / 256 ^ 2 % 256 :=
    (key 2).trans rfl
  have c3 : bufOf (encodeGr gid memNum name passwd members) (8 + 3) = memNum / 256 ^ 3 % 256 :=
    (key 3).trans rfl
  simp only [load32, c0, c1, c2, c3]
  omega

theorem membersLoop_ok' (ms : List (List Nat)) (pb : Option Nat → Nat → Nat)
    (slen tableOff l : Nat) (st : DecSt) (i dlen ptmem : Nat)
    (hnz : ∀ m ∈ ms, noNul m) (hd : (membersBytes ms).length ≤ dlen) :
    membersLoop pb slen tableOff ms.length l (membersBytes ms) st i dlen ptmem =
      (.ok (i + (membersBytes ms).length, ptmem + (membersBytes ms).length),
       memPhase pb tableOff l ptmem st ms) := by
  have h := membersLoop_ok ms pb slen tableOff l [] st i dlen ptmem hnz hd
  simpa using h

theorem readrep_encode_ok (pb : Option Nat → Nat → Nat) (gid memNum : Nat)
    (name passwd : List Nat) (members : List (List Nat)) (buflen : Nat) (arena0 : Nat → Nat)
    (hm : memNum = members.length)
    (hn1 : noNul name) (hn2 : noNul passwd) (hn3 : ∀ m ∈ members, noNul m)
    (hlen : 21 ≤ (encodeGr gid memNum name passwd members).length)
    (hbuf : arenaNeed name passwd members ≤ buflen)
    (hb64 : buflen < 2 ^ 64) (hm32 : memNum + 1 < 2 ^ 32) :
    sss_nss_getgr_readrep pb (bufOf (encodeGr gid memNum name passwd members))
        (encodeGr gid memNum name passwd members).length buflen arena0 =
      (.ok ({ gr_gid := load64 (bufOf (encodeGr gid members.length name passwd members)) 0 % 2 ^ 32,
              nameOff := 0, passwdOff := name.length + 1,
              memOff := name.length + 1 + (passwd.length + 1),
              memNum := members.length }, 0),
       memPhase pb (name.length + 1 + (passwd.length + 1)) 0
         (8 * (members.length + 1) + (name.length + 1 + (passwd.length + 1)))
         (slotWrite pb
           (arWrites (arWrites ⟨arena0, [], []⟩ 0 (name ++ [0])) (name.length + 1) (passwd ++ [0]))
           (name.length + 1 + (passwd.length + 1) + 8 * members.length) none)
         members) := by
  subst hm
  have hneed : arenaNeed name passwd members
      = (name.length + 1) + (passwd.length + 1) + 8 * (members.length + 1)
        + (membersBytes members).length := rfl
  have h21 : ¬ ((encodeGr gid members.length name passwd members).length < 21) := by omega
  unfold sss_nss_getgr_readrep
  rw [if_neg h21]
  simp only [load32_encodeGr gid members.length name passwd members (by omega),
    sbytes_eq gid members.length name passwd members]
  rw [copyField_ok name (passwd ++ 0 :: membersBytes members) ⟨arena0, [], []⟩ 0 buflen hn1
    (by omega)]
  simp only [Nat.zero_add]
  rw [copyField_ok passwd (membersBytes members) _ (name.length + 1) (buflen - (name.length + 1))
    hn2 (by omega)]
  simp only [Nat.mod_eq_of_lt hm32]
  rw [csub64_eq _ _ (by omega) (by omega)]
  rw [if_neg (by omega : ¬ ((0:Nat) > buflen - (name.length + 1) - (passwd.length + 1)
    - 8 * (members.length + 1)))]
  rw [membersLoop_ok' members pb ((encodeGr gid members.length name passwd members).length - 12)
    (name.length + 1 + (passwd.length + 1)) 0 _ (name.length + 1 + (passwd.length + 1))
    (buflen - (name.length + 1) - (passwd.length + 1) - 8 * (members.length + 1))
    (8 * (members.length + 1) + (name.length + 1 + (passwd.length + 1))) hn3 (by omega)]
  have hz : (encodeGr gid members.length name passwd members).length - 12
      - (name.length + 1 + (passwd.length + 1) + (membersBytes members).length) = 0 := by
    rw [encodeGr_length]; omega
  simp only [hz]

theorem getD_append_last (s : List Nat) : (s ++ [0]).getD s.length 0 = 0 := by
  have h0 := getD_append_len s [0] 0
  rw [Nat.add_zero] at h0
  exact h0

theorem slotWrite_slots (pb : Option Nat → Nat → Nat) (st : DecSt) (base : Nat) (v : Option Nat) :
    (slotWrite pb st base v).slots = st.slots ++ [(base, v)] := rfl

/-- Claim C3 (amended: restricted to well-formed records whose total length
is at least the 21-byte decoder floor): decoding a well-formed wire record
(header, NUL-terminated name, passwd, and exactly member-count member
strings) into a sufficiently large arena succeeds, consumes the whole
record, and the decoded name, passwd and members read back from the arena
equal the original fields byte for byte; the member table holds exactly
member-count entries followed by the NULL sentinel, and re-encoding the
fields in order with their NUL terminators reproduces the source bytes. -/
theorem C3_decode_roundtrip (pb : Option Nat → Nat → Nat) (gid memNum : Nat)
    (name passwd : List Nat) (members : List (List Nat)) (buflen : Nat) (arena0 : Nat → Nat)
    (hm : memNum = members.length)
    (hn1 : noNul name) (hn2 : noNul passwd) (hn3 : ∀ m ∈ members, noNul m)
    (hlen : 21 ≤ (encodeGr gid memNum name passwd members).length)
    (hbuf : arenaNeed name passwd members ≤ buflen)
    (hb64 : buflen < 2 ^ 64) (hm32 : memNum + 1 < 2 ^ 32) :
    (sss_nss_getgr_readrep pb (bufOf (encodeGr gid memNum name passwd members))
        (encodeGr gid memNum name passwd members).length buflen arena0).1 =
      .ok ({ gr_gid := load64 (bufOf (encodeGr gid memNum name passwd members)) 0 % 2 ^ 32,
             nameOff := 0, passwdOff := name.length + 1,
             memOff := name.length + 1 + (passwd.length + 1),
             memNum := members.length }, 0) ∧
    readCStr (sss_nss_getgr_readrep pb (bufOf (encodeGr gid memNum name passwd members))
        (encodeGr gid memNum name passwd members).length buflen arena0).2.arena 0 buflen = name ∧
    readCStr (sss_nss_getgr_readrep pb (bufOf (encodeGr gid memNum name passwd members))
        (encodeGr gid memNum name passwd members).length buflen arena0).2.arena
        (name.length + 1) buflen = passwd ∧
    (∀ idx, idx < members.length →
      ∃ off, readSlot (sss_nss_getgr_readrep pb (bufOf (encodeGr gid memNum name passwd members))
          (encodeGr gid memNum name passwd members).length buflen arena0).2.slots
          (name.length + 1 + (passwd.length + 1) + 8 * idx) = some (some off)
        ∧ readCStr (sss_nss_getgr_readrep pb (bufOf (encodeGr gid memNum name passwd members))
            (encodeGr gid memNum name passwd members).length buflen arena0).2.arena off buflen
            = members.getD idx []) ∧
    readSlot (sss_nss_getgr_readrep pb (bufOf (encodeGr gid memNum name passwd members))
        (encodeGr gid memNum name passwd members).length buflen arena0).2.slots
        (name.length + 1 + (passwd.length + 1) + 8 * members.length) = some none ∧
    (name ++ [0]) ++ ((passwd ++ [0]) ++ membersBytes members)
      = (encodeGr gid memNum name passwd members).drop 12 := by
  subst hm
  have hneed : arenaNeed name passwd members
      = (name.length + 1) + (passwd.length + 1) + 8 * (members.length + 1)
        + (membersBytes members).length := rfl
  have hmain := readrep_encode_ok pb gid members.length name passwd members buflen arena0 rfl
    hn1 hn2 hn3 hlen hbuf hb64 hm32
  rw [hmain]
  have harena_low : ∀ j, j < name.length + 1 + (passwd.length + 1) →
      (memPhase pb (name.length + 1 + (passwd.length + 1)) 0
         (8 * (members.length + 1) + (name.length + 1 + (passwd.length + 1)))
         (slotWrite pb
           (arWrites (arWrites ⟨arena0, [], []⟩ 0 (name ++ [0])) (name.length + 1) (passwd ++ [0]))
           (name.length + 1 + (passwd.length + 1) + 8 * members.length) none)
         members).arena j
      = (arWrites (arWrites ⟨arena0, [], []⟩ 0 (name ++ [0])) (name.length + 1)
          (passwd ++ [0])).arena j := by
    intro j hj
    rw [memPhase_arena_out members pb _ 0 _ _ j (by omega) (Or.inl (by omega))]
    exact slotWrite_arena_out _ _ _ _ _ (Or.inl (by omega))
  have hslots : (memPhase pb (name.length + 1 + (passwd.length + 1)) 0
         (8 * (members.length + 1) + (name.length + 1 + (passwd.length + 1)))
         (slotWrite pb
           (arWrites (arWrites ⟨arena0, [], []⟩ 0 (name ++ [0])) (name.length + 1) (passwd ++ [0]))
           (name.length + 1 + (passwd.length + 1) + 8 * members.length) none)
         members).slots
      = [(name.length + 1 + (passwd.length + 1) + 8 * members.length, none)]
          ++ memSlots (name.length + 1 + (passwd.length + 1)) 0
              (8 * (members.length + 1) + (name.length + 1 + (passwd.length + 1))) members := by
    rw [memPhase_slots, slotWrite_slots, arWrites_slots, arWrites_slots]
    simp
  refine ⟨rfl, ?_, ?_, ?_, ?_, ?_⟩
  · -- name round-trips
    refine readCStr_spec name _ 0 buflen ?_ hn1 ?_ (by omega)
    · intro k hk
      rw [harena_low (0 + k) (by omega)]
      rw [arWrites_arena_out _ _ _ _ (by simp; omega)]
      rw [arWrites_arena_in (name ++ [0]) ⟨arena0, [], []⟩ 0 k (by simp; omega)]
      exact getD_append_lt name [0] k hk
    · rw [harena_low (0 + name.length) (by omega)]
      rw [arWrites_arena_out _ _ _ _ (by simp)]
      rw [arWrites_arena_in (name ++ [0]) ⟨arena0, [], []⟩ 0 name.length (by simp)]
      exact getD_append_last name
  · -- passwd round-trips
    refine readCStr_spec passwd _ (name.length + 1) buflen ?_ hn2 ?_ (by omega)
    · intro k hk
      rw [harena_low ((name.length + 1) + k) (by omega)]
      rw [arWrites_arena_in (passwd ++ [0]) _ (name.length + 1) k (by simp; omega)]
      exact getD_append_lt passwd [0] k hk
    · rw [harena_low ((name.length + 1) + passwd.length) (by omega)]
      rw [arWrites_arena_in (passwd ++ [0]) _ (name.length + 1) passwd.length (by simp)]
      exact getD_append_last passwd
  · -- each member round-trips
    intro idx hidx
    have hmem : members.getD idx [] ∈ members := by
      rw [List.getD_eq_getElem _ _ hidx]
      exact List.getElem_mem hidx
    refine ⟨(memOffs (8 * (members.length + 1) + (name.length + 1 + (passwd.length + 1)))
      members).getD idx 0, ?_, ?_⟩
    · rw [hslots]
      apply readSlot_append_some
      have := readSlot_memSlots_hit members (name.length + 1 + (passwd.length + 1)) 0
        (8 * (members.length + 1) + (name.length + 1 + (passwd.length + 1))) idx hidx
      simpa using this
    · refine readCStr_spec (members.getD idx []) _ _ buflen ?_ (hn3 _ hmem) ?_ ?_
      · intro k hk
        rw [memPhase_arena_mem members pb _ 0 _ _ idx k (by omega) hidx (by omega)]
        exact getD_append_lt _ [0] k hk
      · rw [memPhase_arena_mem members pb _ 0 _ _ idx (members.getD idx []).length
          (by omega) hidx (by omega)]
        exact getD_append_last _
      · have := member_lt_membersBytes members idx hidx
        omega
  · -- NULL sentinel
    rw [hslots]
    rw [readSlot_append_none _ _ _ (readSlot_memSlots_none members _ 0 _ _
      (fun idx' hidx' => by omega))]
    simp [readSlot]
  · rw [encodeGr_split, List.drop_left' (by simp [encode64, encode32])]

/-- Claim C1 (code bug): with arena capacity 7 for a record needing 15
bytes (strings "abc", "de" plus the 8-byte member table), decode reports
success, and the write log shows the 8-byte NULL member-table sentinel
written at arena bytes 7..14 — beyond the declared capacity — because the
OutOfSpace check `if (0 > dlen)` of group.c:132 can never fire on the
unsigned dlen after the wrapping subtraction of group.c:131. -/
theorem C1_small_arena_oob_write :
    7 < arenaNeed [97, 98, 99] [100, 101] [] ∧
    (sss_nss_getgr_readrep pb0 (bufOf srcC1) 21 7 zeroArena).1
      = .ok ({ gr_gid := 0, nameOff := 0, passwdOff := 4, memOff := 7, memNum := 0 }, 2) ∧
    (sss_nss_getgr_readrep pb0 (bufOf srcC1) 21 7 zeroArena).2.wlog
      = [0, 1, 2, 3, 4, 5, 6, 7, 8, 9, 10, 11, 12, 13, 14] ∧
    ¬ (14 < 7) := by decide

/-- Claim C2 (code bug): a source slice truncated inside a member string
(bytes 20..23 are "root" with no NUL inside the slice) decodes with result
0 — success with zero bytes remaining — instead of EBADMSG: the
premature-end check `if (i > slen)` of group.c:148 can never fire because
i never exceeds slen, and `if (0 > dlen)` of group.c:151 is dead on the
unsigned dlen. -/
theorem C2_truncated_member_silent_success :
    (∀ k, k < 4 → srcC2.getD (20 + k) 0 ≠ 0) ∧
    srcC2.length = 24 ∧
    (sss_nss_getgr_readrep pb0 (bufOf srcC2) 24 100 zeroArena).1
      = .ok ({ gr_gid := 0, nameOff := 0, passwdOff := 5, memOff := 8, memNum := 1 }, 0) := by
  refine ⟨by decide, by decide, by decide⟩

/-- Claim C3 counterexample: the well-formed minimal record (empty name,
empty passwd, zero members; 14 bytes total) with an amply large arena
(50 bytes, needing only 10) is rejected with EBADMSG — decode does not
succeed for well-formed records shorter than the 21-byte floor, so the
claim as stated fails at this input. -/
theorem C3_short_record_rejected :
    srcMin = encodeGr 0 0 [] [] [] ∧
    arenaNeed [] [] [] ≤ 50 ∧
    (sss_nss_getgr_readrep pb0 (bufOf srcMin) srcMin.length 50 zeroArena).1 = .error EBADMSG ∧
    ∀ r : GrResult × Nat,
      (sss_nss_getgr_readrep pb0 (bufOf srcMin) srcMin.length 50 zeroArena).1 ≠ .ok r := by
  refine ⟨rfl, by decide, by decide, ?_⟩
  intro r hr
  have h : (sss_nss_getgr_readrep pb0 (bufOf srcMin) srcMin.length 50 zeroArena).1
      = .error EBADMSG := by decide
  rw [h] at hr
  exact Except.noConfusion hr

/-- Claim C3 witness: the amended round-trip theorem applied to the
specification example — gid 10, name "wheel", passwd "x", members "root"
and "alice" — in a 100-byte arena. -/
theorem C3_decode_roundtrip_witness :
    21 ≤ srcWheel.length ∧
    arenaNeed [119, 104, 101, 101, 108] [120] [[114, 111, 111, 116], [97, 108, 105, 99, 101]]
      ≤ 100 ∧
    readCStr (sss_nss_getgr_readrep pb0 (bufOf srcWheel) srcWheel.length 100 zeroArena).2.arena
      0 100 = [119, 104, 101, 101, 108] ∧
    readCStr (sss_nss_getgr_readrep pb0 (bufOf srcWheel) srcWheel.length 100 zeroArena).2.arena
      6 100 = [120] ∧
    (∀ idx, idx < 2 →
      ∃ off, readSlot (sss_nss_getgr_readrep pb0 (bufOf srcWheel) srcWheel.length 100
          zeroArena).2.slots (8 + 8 * idx) = some (some off)
        ∧ readCStr (sss_nss_getgr_readrep pb0 (bufOf srcWheel) srcWheel.length 100
            zeroArena).2.arena off 100
          = [[114, 111, 111, 116], [97, 108, 105, 99, 101]].getD idx []) ∧
    readSlot (sss_nss_getgr_readrep pb0 (bufOf srcWheel) srcWheel.length 100 zeroArena).2.slots
      (8 + 8 * 2) = some none := by
  obtain ⟨h1, h2, h3, h4, h5, h6⟩ := C3_decode_roundtrip pb0 10 2 [119, 104, 101, 101, 108]
    [120] [[114, 111, 111, 116], [97, 108, 105, 99, 101]] 100 zeroArena (by decide) (by decide)
    (by decide) (by decide) (by decide) (by decide) (by decide) (by decide)
  exact ⟨by decide, by decide, h2, h3, h4, h5⟩

/-- Claim C9 (amended: restricted to successful decodes of well-formed
records, as the decoder also reports success on records truncated inside a
member string): the consumed source bytes — input length minus the
remaining length reported back, which is 0 here — equal exactly 12 header
bytes plus the lengths of name, passwd and every member string, each
including its NUL terminator. -/
theorem C9_consumed_bytes (pb : Option Nat → Nat → Nat) (gid memNum : Nat)
    (name passwd : List Nat) (members : List (List Nat)) (buflen : Nat) (arena0 : Nat → Nat)
    (hm : memNum = members.length)
    (hn1 : noNul name) (hn2 : noNul passwd) (hn3 : ∀ m ∈ members, noNul m)
    (hlen : 21 ≤ (encodeGr gid memNum name passwd members).length)
    (hbuf : arenaNeed name passwd members ≤ buflen)
    (hb64 : buflen < 2 ^ 64) (hm32 : memNum + 1 < 2 ^ 32) :
    (sss_nss_getgr_readrep pb (bufOf (encodeGr gid memNum name passwd members))
        (encodeGr gid memNum name passwd members).length buflen arena0).1
      = .ok ({ gr_gid := load64 (bufOf (encodeGr gid memNum name passwd members)) 0 % 2 ^ 32,
               nameOff := 0, passwdOff := name.length + 1,
               memOff := name.length + 1 + (passwd.length + 1),
               memNum := members.length }, 0) ∧
    (encodeGr gid memNum name passwd members).length - 0
      = 12 + ((name.length + 1) + ((passwd.length + 1) + (membersBytes members).length)) := by
  subst hm
  refine ⟨?_, by rw [Nat.sub_zero, encodeGr_length]⟩
  rw [readrep_encode_ok pb gid members.length name passwd members buflen arena0 rfl hn1 hn2 hn3
    hlen hbuf hb64 hm32]

/-- Claim C9 counterexample: a decode that the code reports as successful
(the truncated-member input of srcC2) consumes 24 - 0 = 24 source bytes,
but 12 plus the NUL-inclusive lengths of the fields the caller reads back
(name "aaaa": 5, passwd "bb": 3, member "root": 5) is 25 — so the claim,
quantified over every successful decode, fails at this input. -/
theorem C9_consumed_mismatch :
    (sss_nss_getgr_readrep pb0 (bufOf srcC2) 24 100 zeroArena).1
      = .ok ({ gr_gid := 0, nameOff := 0, passwdOff := 5, memOff := 8, memNum := 1 }, 0) ∧
    readCStr (sss_nss_getgr_readrep pb0 (bufOf srcC2) 24 100 zeroArena).2.arena 0 100
      = [97, 97, 97, 97] ∧
    readCStr (sss_nss_getgr_readrep pb0 (bufOf srcC2) 24 100 zeroArena).2.arena 5 100
      = [98, 98] ∧
    readSlot (sss_nss_getgr_readrep pb0 (bufOf srcC2) 24 100 zeroArena).2.slots 8
      = some (some 24) ∧
    readCStr (sss_nss_getgr_readrep pb0 (bufOf srcC2) 24 100 zeroArena).2.arena 24 100
      = [114, 111, 111, 116] ∧
    ¬ (24 - 0 = 12 + ((4 + 1) + ((2 + 1) + (4 + 1)))) := by decide

/-- Claim C9 witness: the record with name "wheel", passwd "x" and members
"root", "alice": consumed bytes are 31 - 0 = 12 + 6 + 2 + 5 + 6. -/
theorem C9_consumed_bytes_witness :
    (sss_nss_getgr_readrep pb0 (bufOf srcWheel) srcWheel.length 100 zeroArena).1
      = .ok ({ gr_gid := load64 (bufOf srcWheel) 0 % 2 ^ 32, nameOff := 0, passwdOff := 6,
               memOff := 8, memNum := 2 }, 0) ∧
    srcWheel.length - 0 = 12 + (6 + (2 + 11)) := by
  have h := C9_consumed_bytes pb0 10 2 [119, 104, 101, 101, 108] [120]
    [[114, 111, 111, 116], [97, 108, 105, 99, 101]] 100 zeroArena (by decide) (by decide)
    (by decide) (by decide) (by decide) (by decide) (by decide) (by decide)
  exact h

/-- Claim C10: a source slice shorter than 21 bytes is rejected with
EBADMSG immediately: the arena state is returned untouched (initial
content, no slot writes, empty write log), and the result does not depend
on the buffer content at all — no header field is read. -/
theorem C10_min_floor_reject (pb : Option Nat → Nat → Nat) (buf : Nat → Nat)
    (len buflen : Nat) (arena0 : Nat → Nat) (h : len < 21) :
    sss_nss_getgr_readrep pb buf len buflen arena0 = (.error EBADMSG, ⟨arena0, [], []⟩) ∧
    ∀ buf' : Nat → Nat, sss_nss_getgr_readrep pb buf' len buflen arena0
      = sss_nss_getgr_readrep pb buf len buflen arena0 := by
  constructor
  · simp [sss_nss_getgr_readrep, h]
  · intro buf'
    simp [sss_nss_getgr_readrep, h]

/-- Claim C10 witness: the structurally complete minimal record (14 bytes)
is rejected with EBADMSG and nothing is written into the arena. -/
theorem C10_min_floor_reject_witness :
    srcMin.length < 21 ∧
    sss_nss_getgr_readrep pb0 (bufOf srcMin) srcMin.length 50 zeroArena
      = (.error EBADMSG, ⟨zeroArena, [], []⟩) ∧
    (sss_nss_getgr_readrep pb0 (bufOf srcMin) srcMin.length 50 zeroArena).2.wlog = [] := by
  have h := C10_min_floor_reject pb0 (bufOf srcMin) srcMin.length 50 zeroArena (by decide)
  exact ⟨by decide, h.1, by rw [h.1]⟩

theorem appendIds_start (repbuf : Nat → Nat) (n : Nat) :
    ∀ (l : Nat) (groups : Int → Nat) (start : Int),
      (appendIds repbuf n l groups start).2 = start + n := by
  induction n with
  | zero => intro l groups start; simp [appendIds]
  | succ k ih =>
    intro l groups start
    rw [appendIds, ih]
    push_cast
    omega

theorem appendIds_outside (repbuf : Nat → Nat) (n : Nat) :
    ∀ (l : Nat) (groups : Int → Nat) (start j : Int),
      (j < start ∨ start + n ≤ j) → (appendIds repbuf n l groups start).1 j = groups j := by
  induction n with
  | zero => intro l groups start j _; simp [appendIds]
  | succ k ih =>
    intro l groups start j hj
    rw [appendIds]
    rw [ih (l + 1) _ (start + 1) j (by push_cast at hj ⊢; omega)]
    have hne : j ≠ start := by push_cast at hj; omega
    simp [hne]

/-- Claim C4 counterexample: with size 10, start 8, limit 9 and a reply of
2 gids (limit > 0 and size + count = 12 > limit), the code finds enough
free capacity (size - start = 2 is not below count), skips the growth
branch and with it the limit clamp entirely, appends both gids and
advances start to 10, past the limit — not by max 0 (limit - start) = 1 as
the claim states for every such call. -/
theorem C4_capacity_skips_limit :
    load32 repC4 0 = 2 ∧
    (0 : Int) < 9 ∧
    (9 : Int) < 10 + 2 ∧
    (nss_sss_initgroups_dyn repC4 8 10 zeroGroups 9 true).status = .success ∧
    (nss_sss_initgroups_dyn repC4 8 10 zeroGroups 9 true).start = 10 ∧
    ¬ ((10 : Int) = 8 + max 0 (9 - 8)) := by decide

/-- Claim C4 (amended: additionally requiring that the existing free
capacity is insufficient, size - start < count, so that the growth branch
carrying the limit clamp is taken, and that realloc succeeds): when
limit > 0 and size + count > limit, the array is clamped to limit, the
number of appended gids is max 0 (limit - start) — never negative — start
advances by exactly that many, entries outside the appended range are
untouched, and the call still returns Success. -/
theorem C4_limit_clamp_on_growth (repbuf : Nat → Nat) (start size limit : Int)
    (groups : Int → Nat)
    (hc : 0 < load32 repbuf 0)
    (hgrow : size - start < (load32 repbuf 0 : Int))
    (hlim : 0 < limit)
    (hover : limit < size + (load32 repbuf 0 : Int)) :
    (nss_sss_initgroups_dyn repbuf start size groups limit true).status = .success ∧
    (nss_sss_initgroups_dyn repbuf start size groups limit true).start
      = start + max 0 (limit - start) ∧
    (nss_sss_initgroups_dyn repbuf start size groups limit true).size = limit ∧
    ∀ j : Int, (j < start ∨ start + max 0 (limit - start) ≤ j) →
      (nss_sss_initgroups_dyn repbuf start size groups limit true).groups j = groups j := by
  have hcl : limit > 0 ∧ size + (load32 repbuf 0 : Int) > limit := ⟨hlim, by omega⟩
  have hmax : ((limit - start).toNat : Int) = max 0 (limit - start) := by
    rw [Int.toNat_eq_max, max_comm]
  have hstep : nss_sss_initgroups_dyn repbuf start size groups limit true
      = ⟨.success, none,
         (appendIds repbuf ((if limit > 0 ∧ size + (load32 repbuf 0 : Int) > limit
             then limit - start else (load32 repbuf 0 : Int)).toNat) 0 groups start).2,
         (if limit > 0 ∧ size + (load32 repbuf 0 : Int) > limit
             then limit else size + (load32 repbuf 0 : Int)),
         (appendIds repbuf ((if limit > 0 ∧ size + (load32 repbuf 0 : Int) > limit
             then limit - start else (load32 repbuf 0 : Int)).toNat) 0 groups start).1,
         false⟩ := by
    unfold nss_sss_initgroups_dyn
    rw [if_neg (by omega), if_pos hgrow]
    rfl
  rw [if_pos hcl, if_pos hcl] at hstep
  rw [hstep]
  refine ⟨rfl, ?_, rfl, ?_⟩
  · show (appendIds repbuf (limit - start).toNat 0 groups start).2 = _
    rw [appendIds_start, hmax]
  · intro j hj
    show (appendIds repbuf (limit - start).toNat 0 groups start).1 j = groups j
    refine appendIds_outside repbuf _ 0 groups start j ?_
    rw [hmax]
    exact hj

/-- Claim C4 witness: the specification example — size 5, start 3,
limit 6, a reply of 10 gids: the call succeeds and start becomes
3 + max 0 (6 - 3) = 6 (exactly 3 gids appended at indices 3, 4, 5),
entries at and above index 6 untouched. -/
theorem C4_limit_clamp_on_growth_witness :
    0 < load32 repTen 0 ∧
    (5 : Int) - 3 < (load32 repTen 0 : Int) ∧
    (nss_sss_initgroups_dyn repTen 3 5 zeroGroups 6 true).status = .success ∧
    (nss_sss_initgroups_dyn repTen 3 5 zeroGroups 6 true).start = 3 + max 0 (6 - 3) ∧
    (nss_sss_initgroups_dyn repTen 3 5 zeroGroups 6 true).size = 6 ∧
    (∀ j : Int, (j < 3 ∨ 3 + max 0 ((6 : Int) - 3) ≤ j) →
      (nss_sss_initgroups_dyn repTen 3 5 zeroGroups 6 true).groups j = zeroGroups j) := by
  have h := C4_limit_clamp_on_growth repTen 3 5 6 zeroGroups (by decide) (by decide) (by decide)
    (by decide)
  exact ⟨by decide, by decide, h.1, h.2.1, h.2.2.1, h.2.2.2⟩

/-- Claim C5 (code bug): when the reply carries 2 results (ambiguous
multi-result), both lookup-by-name and lookup-by-id return TryAgain with
errno EBADMSG but do not free the reply buffer they own (third component
false) — group.c:262-265 and 310-313 return without free(repbuf),
contradicting the rule that every early error path frees the buffer. -/
theorem C5_multi_result_leaks_buffer :
    load32 repTwo 0 = 2 ∧
    nss_sss_getgrnam_r pb0 repTwo 16 50 zeroArena = (.tryagain, some EBADMSG, false) ∧
    nss_sss_getgrgid_r pb0 repTwo 16 50 zeroArena = (.tryagain, some EBADMSG, false) := by
  refine ⟨by decide, by decide, by decide⟩

/-- Claim C8: when the reply is nonempty, the array must grow, and realloc
fails, the operation returns TryAgain with ENOMEM preserved in errnop, the
reply buffer is freed, and the caller state — groups pointer, size and
start — is exactly as before the call with nothing appended. -/
theorem C8_realloc_fail_no_mutation (repbuf : Nat → Nat) (start size limit : Int)
    (groups : Int → Nat)
    (hc : 0 < load32 repbuf 0)
    (hgrow : size - start < (load32 repbuf 0 : Int)) :
    nss_sss_initgroups_dyn repbuf start size groups limit false
      = ⟨.tryagain, some ENOMEM, start, size, groups, true⟩ := by
  unfold nss_sss_initgroups_dyn
  rw [if_neg (by omega), if_pos hgrow]
  simp

/-- Claim C8 witness: a 1-gid reply into an empty array with failing
realloc: TryAgain, errno ENOMEM, array untouched. -/
theorem C8_realloc_fail_no_mutation_witness :
    0 < load32 repOne 0 ∧
    (0 : Int) - 0 < (load32 repOne 0 : Int) ∧
    nss_sss_initgroups_dyn repOne 0 0 zeroGroups 0 false
      = ⟨.tryagain, some ENOMEM, 0, 0, zeroGroups, true⟩ := by
  have h := C8_realloc_fail_no_mutation repOne 0 0 0 zeroGroups (by decide) (by decide)
  exact ⟨by decide, by decide, h⟩

theorem readrep_ok_rem (pb : Option Nat → Nat → Nat) (buf : Nat → Nat) (len buflen : Nat)
    (arena0 : Nat → Nat) (r : GrResult) (rem : Nat) (st' : DecSt)
    (h : sss_nss_getgr_readrep pb buf len buflen arena0 = (.ok (r, rem), st')) :
    rem ≤ len - 12 := by
  unfold sss_nss_getgr_readrep at h
  by_cases h21 : len < 21
  · rw [if_pos h21] at h
    simp at h
  · rw [if_neg h21] at h
    dsimp only [] at h
    split at h
    · simp at h
    · split at h
      · simp at h
      · split at h
        · simp at h
        · split at h
          · simp at h
          · simp only [Prod.mk.injEq, Except.ok.injEq] at h
            obtain ⟨⟨_, hrem⟩, _⟩ := h
            omega

theorem getgrent_post (pb : Option Nat → Nat → Nat) (buflen : Nat) (arena0 : Nat → Nat) :
    ∀ (script : List Fetch) (st : GrentData),
      grentInv (nss_sss_getgrent_r pb buflen arena0 script st).2.2
      ∨ ((nss_sss_getgrent_r pb buflen arena0 script st).2.2 = st ∧ st.ptr < st.len) := by
  intro script
  induction script with
  | nil =>
    intro st
    unfold nss_sss_getgrent_r
    by_cases hcond : st.data.isSome ∧ st.ptr < st.len
    · rw [if_pos hcond]
      dsimp only []
      split
      · exact Or.inr ⟨rfl, hcond.2⟩
      · exact Or.inl (Nat.sub_le _ _)
    · rw [if_neg hcond]
      exact Or.inl (Nat.le_refl 0)
  | cons fch rest ih =>
    intro st
    unfold nss_sss_getgrent_r
    by_cases hcond : st.data.isSome ∧ st.ptr < st.len
    · rw [if_pos hcond]
      dsimp only []
      split
      · exact Or.inr ⟨rfl, hcond.2⟩
      · exact Or.inl (Nat.sub_le _ _)
    · rw [if_neg hcond]
      cases fch with
      | fail s e => exact Or.inl (Nat.le_refl 0)
      | ok buf replen =>
        dsimp only []
        by_cases hz : load32 buf 0 = 0 ∨ csub64 replen 8 = 0
        · rw [if_pos hz]
          exact Or.inl (Nat.le_refl 0)
        · rw [if_neg hz]
          rcases ih ⟨replen, 8, some buf⟩ with hi | ⟨heq, hlt⟩
          · exact Or.inl hi
          · left
            rw [heq]
            exact Nat.le_of_lt hlt

/-- Claim C7: every cursor operation preserves the invariant that the read
offset does not exceed the batch length: one full getgrent call — whatever
batches of whatever reply lengths the channel supplies, including the
transition that stores a fresh batch with the offset set past the 8-byte
header — leaves a state satisfying it, and the open and close operations
leave the cleaned state, which satisfies it trivially. -/
theorem C7_cursor_invariant (pb : Option Nat → Nat → Nat) (buflen : Nat) (arena0 : Nat → Nat)
    (script : List Fetch) (st : GrentData) (h : grentInv st) :
    grentInv (nss_sss_getgrent_r pb buflen arena0 script st).2.2 ∧
    grentInv nss_sss_setgrent ∧ grentInv nss_sss_endgrent := by
  refine ⟨?_, Nat.le_refl 0, Nat.le_refl 0⟩
  rcases getgrent_post pb buflen arena0 script st with hi | ⟨heq, _⟩
  · exact hi
  · rw [heq]
    exact h

/-- Claim C7 witness: starting from the clean state with an empty channel
script, the invariant holds before and after the call. -/
theorem C7_cursor_invariant_witness :
    grentInv sss_nss_getgrent_data_clean ∧
    grentInv (nss_sss_getgrent_r pb0 50 zeroArena [] sss_nss_getgrent_data_clean).2.2 := by
  have h := C7_cursor_invariant pb0 50 zeroArena [] sss_nss_getgrent_data_clean (Nat.le_refl 0)
  exact ⟨Nat.le_refl 0, h.1⟩

/-- Claim C6: on an Active batch (buffer held, offset below length), if the
record decode fails the call returns TryAgain with the decoder errno and
the cursor state — buffer, length, offset — is exactly what it was before
the call; if the decode succeeds the offset advances by exactly the bytes
consumed by that one record (the decode input length minus the remaining
length it reports), and buffer and length are unchanged. -/
theorem C6_cursor_decode_step (pb : Option Nat → Nat → Nat) (buflen : Nat) (arena0 : Nat → Nat)
    (script : List Fetch) (st : GrentData) (f : Nat → Nat)
    (hdata : st.data = some f) (hlt : st.ptr < st.len) :
    (∀ e st', sss_nss_getgr_readrep pb (fun k => f (st.ptr + k)) (st.len - st.ptr) buflen arena0
        = (.error e, st') →
      nss_sss_getgrent_r pb buflen arena0 script st = (.tryagain, some e, st)) ∧
    (∀ r rem st', sss_nss_getgr_readrep pb (fun k => f (st.ptr + k)) (st.len - st.ptr) buflen arena0
        = (.ok (r, rem), st') →
      rem ≤ st.len - st.ptr ∧
      nss_sss_getgrent_r pb buflen arena0 script st
        = (.success, none, ⟨st.len, st.ptr + ((st.len - st.ptr) - rem), st.data⟩)) := by
  obtain ⟨len, ptr, data⟩ := st
  dsimp only [] at hdata hlt ⊢
  subst hdata
  have hcond : (Option.isSome (some f) : Prop) ∧ ptr < len := ⟨rfl, hlt⟩
  constructor
  · intro e st' hdec
    unfold nss_sss_getgrent_r
    rw [if_pos hcond]
    simp only [Option.getD_some]
    rw [hdec]
  · intro r rem st' hdec
    have hr : rem ≤ len - ptr := Nat.le_trans (readrep_ok_rem _ _ _ _ _ _ _ _ hdec) (by omega)
    refine ⟨hr, ?_⟩
    unfold nss_sss_getgrent_r
    rw [if_pos hcond]
    simp only [Option.getD_some]
    rw [hdec]
    dsimp only []
    have heq : len - rem = ptr + (len - ptr - rem) := by omega
    rw [heq]

/-- Claim C6 witness: an Active cursor (length 10, offset 0) whose batch is
too short for a record: decode fails with EBADMSG, the call returns
TryAgain, and the cursor state is exactly as before the call. -/
theorem C6_cursor_decode_step_witness :
    nss_sss_getgrent_r pb0 50 zeroArena [] ⟨10, 0, some zeroArena⟩
      = (.tryagain, some EBADMSG, ⟨10, 0, some zeroArena⟩) := by
  have h := (C6_cursor_decode_step pb0 50 zeroArena [] ⟨10, 0, some zeroArena⟩ zeroArena rfl
    (by decide)).1
  exact h EBADMSG ⟨zeroArena, [], []⟩ rfl

end SssNss
